import Mathlib

/-!
Verification of the record-management and encrypted-snapshot component of the
gadget tracker (class `EnterpriseGadgetTracker`).

Embedding conventions, all stated against the TypeScript source:

* A `Date` value is modelled by its millisecond instant, a `Nat`.
* An ISO-8601 date string is modelled by the instant it denotes (`IsoString`):
  `Date.toISOString` is injective on instants and `new Date(iso)` recovers the
  instant, so the textual rendering carries no extra information.
* The live map `Map<string, Gadget>` is modelled as an insertion-ordered list
  of gadgets keyed by their `id` field (every `set` call in the source uses
  `g.id` as the key).  `mapSet` replaces an existing key in place and appends
  a fresh key at the end, exactly the insertion-order semantics of a JS `Map`.
* Each operation receives the values produced by its nondeterministic inputs
  as extra arguments: the fresh id from `generateId()` and the current clock
  reading for the `new Date()` calls made during the operation.
* Mutating methods return the resulting store next to their result.  A method
  that throws returns the store exactly as it was at the moment of the throw,
  which makes partial mutation before a throw observable.
* SHA-256 key derivation is modelled as an ideal collision-free hash: the
  derived key is represented by its preimage (the secret), which keeps the
  derivation deterministic and injective.
* AES-256-CBC is modelled as an ideal cipher: the ciphertext is an opaque
  token recording key, iv and plaintext, and decryption yields the plaintext
  exactly when key and iv match and otherwise fails, modelling the PKCS
  padding check or the subsequent JSON parse rejecting garbage output.
* After `importEncrypted`, the `addedAt` field inside a history snapshot is
  whatever `JSON.parse` produced, namely a string, while live gadgets get a
  re-parsed `Date`; the sum type `DateLike` records this distinction.
-/

/-- Action tag of a history entry: the string union ADD | UPDATE | DELETE. -/
inductive GadgetAction where
  | ADD
  | UPDATE
  | DELETE
deriving DecidableEq, Repr

/-- An ISO-8601 date string, represented by the instant (ms) it denotes. -/
structure IsoString where
  ms : Nat
deriving DecidableEq, Repr

/-- A value that is either a genuine `Date` or a date string left over from
`JSON.parse` (import does not re-parse the `addedAt` inside snapshots). -/
inductive DateLike where
  | date (ms : Nat)
  | str (s : IsoString)
deriving DecidableEq, Repr

/-- A live gadget record.  `addedAt` is always a genuine `Date` here: `add`
creates it with `new Date()` and import re-parses it with `new Date(...)`. -/
structure Gadget where
  id : String
  name : String
  brand : String
  price : Int
  addedAt : Nat
deriving DecidableEq, Repr

/-- The gadget value held inside a history entry.  Snapshots recorded by
`recordHistory` carry a `Date`, snapshots installed by `importEncrypted`
carry the parsed JSON string, hence the `DateLike` field. -/
structure SnapGadget where
  id : String
  name : String
  brand : String
  price : Int
  addedAt : DateLike
deriving DecidableEq, Repr

/-- One entry of the history log (interface `GadgetHistoryEntry`). -/
structure GadgetHistoryEntry where
  action : GadgetAction
  gadget : SnapGadget
  timestamp : Nat
deriving DecidableEq, Repr

/-- The mutable state of an `EnterpriseGadgetTracker` instance: the gadget
map in insertion order, the history array, and the version counter. -/
structure EnterpriseGadgetTracker where
  gadgets : List Gadget
  history : List GadgetHistoryEntry
  version : Nat
deriving DecidableEq, Repr

/-- The error kinds the component can raise. -/
inductive Err where
  | validationError
  | decryptionError
deriving DecidableEq, Repr

/-- Model of `Map.set(g.id, g)`: replace the entry with the same id in place, or append
a new entry at the end (JS `Map` keeps insertion order). -/
def mapSet : List Gadget → Gadget → List Gadget
  | [], g => [g]
  | x :: t, g => if x.id = g.id then g :: t else x :: mapSet t g

/-- Model of `Map.get(id)`: the entry with the given id, if any. -/
def mapGet : List Gadget → String → Option Gadget
  | [], _ => none
  | x :: t, i => if x.id = i then some x else mapGet t i

/-- Model of `Map.delete(id)`: remove the entry with the given id. -/
def mapDelete : List Gadget → String → List Gadget
  | [], _ => []
  | x :: t, i => if x.id = i then t else x :: mapDelete t i

/-- The spread copy `{ ...gadget }` taken by `recordHistory`. -/
def snapOf (g : Gadget) : SnapGadget :=
  ⟨g.id, g.name, g.brand, g.price, .date g.addedAt⟩

/-- The constructor: installs each initial gadget keyed by its id, without
validation; history starts empty and version starts at 1. -/
def mkTracker (initialGadgets : List Gadget) : EnterpriseGadgetTracker :=
  ⟨initialGadgets.foldl mapSet [], [], 1⟩

/-- The store made by `new EnterpriseGadgetTracker()` with no argument. -/
def emptyTracker : EnterpriseGadgetTracker := ⟨[], [], 1⟩

/-- The partial update argument `Partial<Omit<Gadget, id | addedAt>>`. -/
structure GadgetUpdate where
  name : Option String
  brand : Option String
  price : Option Int
deriving DecidableEq, Repr

/-- Method `addGadget`.  `freshId` is the value returned by `generateId()`
and `now` the clock reading for the `new Date()` calls of this operation. -/
def addGadget (s : EnterpriseGadgetTracker) (freshId : String) (now : Nat)
    (name brand : String) (price : Int) : Except Err Gadget × EnterpriseGadgetTracker :=
  if name = "" ∨ brand = "" ∨ price < 0 then
    (.error .validationError, s)
  else
    let gadget : Gadget := ⟨freshId, name, brand, price, now⟩
    (.ok gadget,
      ⟨mapSet s.gadgets gadget, s.history ++ [⟨.ADD, snapOf gadget, now⟩], s.version⟩)

/-- Method `updateGadget`.  Field writes happen in source order: `name` and
`brand` are assigned to the live record before the price check, so a negative
price throws with those assignments already applied to the map. -/
def updateGadget (s : EnterpriseGadgetTracker) (now : Nat) (id : String)
    (data : GadgetUpdate) : Except Err (Option Gadget) × EnterpriseGadgetTracker :=
  match mapGet s.gadgets id with
  | none => (.ok none, s)
  | some gadget =>
    let g1 := match data.name with
      | some n => { gadget with name := n }
      | none => gadget
    let g2 := match data.brand with
      | some b => { g1 with brand := b }
      | none => g1
    match data.price with
    | some p =>
      if p < 0 then
        (.error .validationError, ⟨mapSet s.gadgets g2, s.history, s.version⟩)
      else
        let g3 := { g2 with price := p }
        (.ok (some g3),
          ⟨mapSet s.gadgets g3, s.history ++ [⟨.UPDATE, snapOf g3, now⟩], s.version⟩)
    | none =>
      (.ok (some g2),
        ⟨mapSet s.gadgets g2, s.history ++ [⟨.UPDATE, snapOf g2, now⟩], s.version⟩)

/-- Method `deleteGadget`. -/
def deleteGadget (s : EnterpriseGadgetTracker) (now : Nat) (id : String) :
    Bool × EnterpriseGadgetTracker :=
  match mapGet s.gadgets id with
  | none => (false, s)
  | some g =>
    (true, ⟨mapDelete s.gadgets id, s.history ++ [⟨.DELETE, snapOf g, now⟩], s.version⟩)

/-- The comparator of `listGadgets`: `(a, b) => b.addedAt - a.addedAt`
orders by `addedAt` descending. -/
def gadgetGe (a b : Gadget) : Prop := b.addedAt ≤ a.addedAt

instance : DecidableRel gadgetGe := fun a b => Nat.decLe b.addedAt a.addedAt

instance : IsTotal Gadget gadgetGe :=
  ⟨fun a b => Nat.le_total b.addedAt a.addedAt⟩

instance : IsTrans Gadget gadgetGe :=
  ⟨fun _ _ _ h1 h2 => Nat.le_trans h2 h1⟩

/-- No two entries of the map share an id. -/
def nodupIds (l : List Gadget) : Prop :=
  l.Pairwise (fun a b => a.id ≠ b.id)

instance (l : List Gadget) : Decidable (nodupIds l) := by
  unfold nodupIds
  infer_instance

/-- Every stored price is non-negative. -/
def priceInv (s : EnterpriseGadgetTracker) : Prop :=
  ∀ g ∈ s.gadgets, 0 ≤ g.price

instance (s : EnterpriseGadgetTracker) : Decidable (priceInv s) := by
  unfold priceInv
  infer_instance

/-- The live record after the `name` and `brand` writes of `updateGadget`. -/
def applyFields (g : Gadget) (data : GadgetUpdate) : Gadget :=
  ⟨g.id, data.name.getD g.name, data.brand.getD g.brand, g.price, g.addedAt⟩

/-- Method `listGadgets`: a stable sort of the map values by `addedAt`
descending (`Array.prototype.sort` is stable, and insertion sort with a
non-strict comparator is the stable sort). -/
def listGadgets (s : EnterpriseGadgetTracker) : List Gadget :=
  s.gadgets.insertionSort gadgetGe

/-- A symmetric key.  `createKey` is `SHA-256(secret)`, modelled as an ideal
collision-free one-way hash and therefore represented by its preimage. -/
structure CipherKey where
  digest : String
deriving DecidableEq, Repr

/-- Private helper `createKey`. -/
def createKey (secret : String) : CipherKey := ⟨secret⟩

/-- Wire form of a gadget inside the serialized payload: `JSON.stringify`
renders the `Date` field as an ISO string. -/
structure WGadget where
  id : String
  name : String
  brand : String
  price : Int
  addedAt : IsoString
deriving DecidableEq, Repr

/-- Wire form of a history entry inside the serialized payload. -/
structure WHistoryEntry where
  action : GadgetAction
  gadget : WGadget
  timestamp : IsoString
deriving DecidableEq, Repr

/-- The serialized plaintext `{ gadgets, history, version }`. -/
structure ExportPayload where
  gadgets : List WGadget
  history : List WHistoryEntry
  version : Nat
deriving DecidableEq, Repr

/-- A hex ciphertext, modelled as an ideal-cipher token: AES-256-CBC under
key and iv, holding the plaintext it was produced from. -/
structure CipherBlob where
  key : CipherKey
  iv : Nat
  payload : ExportPayload
deriving DecidableEq, Repr

/-- The interface `EncryptedExport { version, iv, data }`. -/
structure EncryptedExport where
  version : Nat
  iv : Nat
  data : CipherBlob
deriving DecidableEq, Repr

/-- CBC encryption of the serialized payload (ideal-cipher model). -/
def encryptAES (key : CipherKey) (iv : Nat) (payload : ExportPayload) : CipherBlob :=
  ⟨key, iv, payload⟩

/-- CBC decryption: with the matching key and iv it recovers the plaintext;
with any other key or iv the padding check or the subsequent JSON parse
rejects the garbage output, surfaced as `none`. -/
def decryptAES (key : CipherKey) (iv : Nat) (blob : CipherBlob) : Option ExportPayload :=
  if blob.key = key ∧ blob.iv = iv then some blob.payload else none

/-- Serialization of a live gadget: `addedAt` becomes its ISO rendering. -/
def wireOfGadget (g : Gadget) : WGadget :=
  ⟨g.id, g.name, g.brand, g.price, ⟨g.addedAt⟩⟩

/-- Serialization of a `DateLike`: a `Date` renders as its ISO string, a
string renders as itself. -/
def isoOfDateLike : DateLike → IsoString
  | .date ms => ⟨ms⟩
  | .str s => s

/-- Serialization of a history snapshot gadget. -/
def wireOfSnap (g : SnapGadget) : WGadget :=
  ⟨g.id, g.name, g.brand, g.price, isoOfDateLike g.addedAt⟩

/-- Serialization of one history entry. -/
def wireOfEntry (h : GadgetHistoryEntry) : WHistoryEntry :=
  ⟨h.action, wireOfSnap h.gadget, ⟨h.timestamp⟩⟩

/-- Deserialization of a live gadget on import: `g.addedAt = new Date(g.addedAt)`
re-parses the ISO string into a `Date`; all other fields are kept verbatim. -/
def gadgetOfWire (w : WGadget) : Gadget :=
  ⟨w.id, w.name, w.brand, w.price, w.addedAt.ms⟩

/-- Deserialization of one history entry on import: the entry timestamp is
re-parsed with `new Date(h.timestamp)`, but the snapshot gadget is kept
verbatim from the parsed JSON, so its `addedAt` stays a string. -/
def entryOfWire (w : WHistoryEntry) : GadgetHistoryEntry :=
  ⟨w.action, ⟨w.gadget.id, w.gadget.name, w.gadget.brand, w.gadget.price,
    .str w.gadget.addedAt⟩, w.timestamp.ms⟩

/-- Method `exportEncrypted`.  `iv` is the value of `crypto.randomBytes(16)`
for this call. -/
def exportEncrypted (s : EnterpriseGadgetTracker) (secret : String) (iv : Nat) :
    EncryptedExport :=
  ⟨s.version, iv,
    encryptAES (createKey secret) iv
      ⟨s.gadgets.map wireOfGadget, s.history.map wireOfEntry, s.version⟩⟩

/-- Method `importEncrypted`.  Every throwing statement (decryption, JSON
parse, shape check) precedes the first mutation in the source, so the
failure branch returns the store untouched.  The shape check
`Array.isArray(parsed.gadgets) && Array.isArray(parsed.history)` always
holds for a decrypted payload, whose fields are lists by construction.
On success the map is cleared and rebuilt from the payload, the history is
replaced wholesale, and `version` becomes `parsed.version || 1`. -/
def importEncrypted (s : EnterpriseGadgetTracker) (e : EncryptedExport)
    (secret : String) : Except Err Unit × EnterpriseGadgetTracker :=
  match decryptAES (createKey secret) e.iv e.data with
  | none => (.error .decryptionError, s)
  | some payload =>
    (.ok (),
      ⟨payload.gadgets.foldl (fun m w => mapSet m (gadgetOfWire w)) [],
        payload.history.map entryOfWire,
        if payload.version = 0 then 1 else payload.version⟩)

/-- The shape in which a history entry re-emerges from an export and import
round trip: action and timestamp are restored exactly, while the snapshot
keeps the serialized string form of its `addedAt` field. -/
def reSnap (e : GadgetHistoryEntry) : GadgetHistoryEntry :=
  ⟨e.action, ⟨e.gadget.id, e.gadget.name, e.gadget.brand, e.gadget.price,
    .str (isoOfDateLike e.gadget.addedAt)⟩, e.timestamp⟩

/-- One call to a mutating CRUD method, with its nondeterministic inputs. -/
inductive Op where
  | add (freshId : String) (now : Nat) (name brand : String) (price : Int)
  | update (now : Nat) (id : String) (data : GadgetUpdate)
  | del (now : Nat) (id : String)
deriving DecidableEq, Repr

/-- The store state after one call, whether or not the call threw. -/
def applyOp (s : EnterpriseGadgetTracker) : Op → EnterpriseGadgetTracker
  | .add freshId now name brand price => (addGadget s freshId now name brand price).2
  | .update now id data => (updateGadget s now id data).2
  | .del now id => (deleteGadget s now id).2

/-- The store state after a sequence of CRUD calls. -/
def runOps (s : EnterpriseGadgetTracker) (ops : List Op) : EnterpriseGadgetTracker :=
  ops.foldl applyOp s

/-!
Reference-semantics model.  JS objects live on a heap and both the map and
the history hold references; `updateGadget` mutates the referenced object in
place, and `recordHistory` stores the fresh object allocated by the spread
copy `{ ...gadget }`.  This model makes the aliasing structure explicit, so
that the independence of recorded snapshots from the live objects is a real
statement rather than a byproduct of value semantics.
-/

namespace RefModel

/-- The field content of one gadget object on the heap. -/
structure GObj where
  id : String
  name : String
  brand : String
  price : Int
  addedAt : Nat
deriving DecidableEq, Repr

/-- A reference: the allocation index of an object on the heap. -/
abbrev Ref := Nat

/-- A history entry holds a reference to its snapshot object. -/
structure HEntry where
  action : GadgetAction
  gadget : Ref
  timestamp : Nat
deriving DecidableEq, Repr

/-- Tracker state with the object heap explicit: the map and the history
both hold references into the heap. -/
structure StoreR where
  heap : List GObj
  live : List (String × Ref)
  hist : List HEntry
deriving DecidableEq, Repr

/-- Dereference; total with a dummy object, never reached under `WFR`. -/
def derefR (h : List GObj) (r : Ref) : GObj :=
  h.getD r ⟨"", "", "", 0, 0⟩

/-- Model of `Map.get(id)` on the reference map. -/
def lookupLive : List (String × Ref) → String → Option Ref
  | [], _ => none
  | p :: t, i => if p.1 = i then some p.2 else lookupLive t i

/-- Model of `Map.set(id, r)` on the reference map: replace in place or append. -/
def liveSet : List (String × Ref) → String → Ref → List (String × Ref)
  | [], i, r => [(i, r)]
  | p :: t, i, r => if p.1 = i then (i, r) :: t else p :: liveSet t i r

/-- Model of `Map.delete(id)` on the reference map. -/
def liveDelete : List (String × Ref) → String → List (String × Ref)
  | [], _ => []
  | p :: t, i => if p.1 = i then t else p :: liveDelete t i

/-- The object value after the `name` and `brand` writes of `updateGadget`. -/
def applyFieldsObj (g : GObj) (data : GadgetUpdate) : GObj :=
  ⟨g.id, data.name.getD g.name, data.brand.getD g.brand, g.price, g.addedAt⟩

/-- Private helper `recordHistory`: the spread copy `{ ...gadget }` allocates
a fresh object holding the value `v`, and the entry references that fresh
object, never a live one. -/
def recordHistoryR (s : StoreR) (a : GadgetAction) (v : GObj) (now : Nat) : StoreR :=
  ⟨s.heap ++ [v], s.live, s.hist ++ [⟨a, s.heap.length, now⟩]⟩

/-- Method `addGadget` under reference semantics: one allocation for the
live object, a second one inside `recordHistory` for the snapshot. -/
def addGadgetR (s : StoreR) (freshId : String) (now : Nat) (name brand : String)
    (price : Int) : Except Err Ref × StoreR :=
  if name = "" ∨ brand = "" ∨ price < 0 then
    (.error .validationError, s)
  else
    let v : GObj := ⟨freshId, name, brand, price, now⟩
    let r : Ref := s.heap.length
    let s1 : StoreR := ⟨s.heap ++ [v], liveSet s.live freshId r, s.hist⟩
    (.ok r, recordHistoryR s1 .ADD v now)

/-- Method `updateGadget` under reference semantics: the object referenced
by the map is mutated in place (`heap.set`), then a snapshot of the mutated
value is recorded. -/
def updateGadgetR (s : StoreR) (now : Nat) (id : String) (data : GadgetUpdate) :
    Except Err (Option Ref) × StoreR :=
  match lookupLive s.live id with
  | none => (.ok none, s)
  | some r =>
    let gadget := derefR s.heap r
    let g1 := match data.name with
      | some n => { gadget with name := n }
      | none => gadget
    let g2 := match data.brand with
      | some b => { g1 with brand := b }
      | none => g1
    let heap1 := s.heap.set r g2
    match data.price with
    | some p =>
      if p < 0 then
        (.error .validationError, ⟨heap1, s.live, s.hist⟩)
      else
        let g3 := { g2 with price := p }
        let heap2 := heap1.set r g3
        (.ok (some r), recordHistoryR ⟨heap2, s.live, s.hist⟩ .UPDATE g3 now)
    | none =>
      (.ok (some r), recordHistoryR ⟨heap1, s.live, s.hist⟩ .UPDATE g2 now)

/-- Method `deleteGadget` under reference semantics: the live object stays
on the heap (garbage), the snapshot is a fresh copy. -/
def deleteGadgetR (s : StoreR) (now : Nat) (id : String) : Bool × StoreR :=
  match lookupLive s.live id with
  | none => (false, s)
  | some r =>
    let g := derefR s.heap r
    (true, recordHistoryR ⟨s.heap, liveDelete s.live id, s.hist⟩ .DELETE g now)

/-- Ownership invariant: every reference is allocated, and no history entry
references an object that the live map references — snapshots are
independent copies. -/
def WFR (s : StoreR) : Prop :=
  (∀ q ∈ s.live, q.2 < s.heap.length) ∧
  (∀ e ∈ s.hist, e.gadget < s.heap.length ∧ ∀ q ∈ s.live, e.gadget ≠ q.2)

instance (s : StoreR) : Decidable (WFR s) := by
  unfold WFR; infer_instance

/-- One CRUD call under reference semantics. -/
def applyOpR (s : StoreR) : Op → StoreR
  | .add freshId now name brand price => (addGadgetR s freshId now name brand price).2
  | .update now id data => (updateGadgetR s now id data).2
  | .del now id => (deleteGadgetR s now id).2

/-- A sequence of CRUD calls under reference semantics. -/
def runOpsR (s : StoreR) (ops : List Op) : StoreR :=
  ops.foldl applyOpR s

/-- The freshly constructed tracker under reference semantics. -/
def emptyR : StoreR := ⟨[], [], []⟩

end RefModel

/-! Helper lemmas about the insertion-ordered map. -/

theorem mem_mapSet {g x : Gadget} : ∀ {l : List Gadget},
    x ∈ mapSet l g → x ∈ l ∨ x = g := by
  intro l
  induction l with
  | nil => intro hx; simpa [mapSet] using hx
  | cons a t ih =>
    intro hx
    by_cases hid : a.id = g.id
    · simp only [mapSet, if_pos hid, List.mem_cons] at hx
      rcases hx with hx | hx
      · exact .inr hx
      · exact .inl (List.mem_cons_of_mem a hx)
    · simp only [mapSet, if_neg hid, List.mem_cons] at hx
      rcases hx with hx | hx
      · exact .inl (by simp [hx])
      · rcases ih hx with h | h
        · exact .inl (List.mem_cons_of_mem a h)
        · exact .inr h

theorem mapDelete_sublist (l : List Gadget) (i : String) :
    List.Sublist (mapDelete l i) l := by
  induction l with
  | nil => simp [mapDelete]
  | cons a t ih =>
    by_cases hid : a.id = i
    · simp only [mapDelete, if_pos hid]
      exact List.sublist_cons_self a t
    · simpa [mapDelete, hid] using ih.cons₂ a

theorem mem_mapDelete {l : List Gadget} {i : String} {x : Gadget}
    (hx : x ∈ mapDelete l i) : x ∈ l :=
  (mapDelete_sublist l i).mem hx

theorem nodupIds_mapSet {g : Gadget} : ∀ {l : List Gadget},
    nodupIds l → nodupIds (mapSet l g) := by
  intro l
  induction l with
  | nil => intro _; simp [mapSet, nodupIds]
  | cons a t ih =>
    intro h
    rcases List.pairwise_cons.mp h with ⟨ha, ht⟩
    by_cases hid : a.id = g.id
    · simp only [mapSet, if_pos hid]
      exact List.pairwise_cons.mpr ⟨fun b hb => hid ▸ ha b hb, ht⟩
    · simp only [mapSet, if_neg hid]
      refine List.pairwise_cons.mpr ⟨fun b hb => ?_, ih ht⟩
      rcases mem_mapSet hb with hb | hb
      · exact ha b hb
      · exact hb ▸ hid

theorem nodupIds_mapDelete {l : List Gadget} {i : String} (h : nodupIds l) :
    nodupIds (mapDelete l i) :=
  h.sublist (mapDelete_sublist l i)

theorem mapGet_self_of_nodup {g : Gadget} : ∀ {l : List Gadget},
    nodupIds l → g ∈ l → mapGet l g.id = some g := by
  intro l
  induction l with
  | nil => intro _ hg; cases hg
  | cons a t ih =>
    intro h hg
    rcases List.pairwise_cons.mp h with ⟨ha, ht⟩
    rcases List.mem_cons.mp hg with hg | hg
    · simp [mapGet, hg]
    · have hne : a.id ≠ g.id := ha g hg
      simp [mapGet, hne, ih ht hg]

theorem mapGet_eq_none_of_forall_ne {i : String} : ∀ {l : List Gadget},
    (∀ x ∈ l, x.id ≠ i) → mapGet l i = none := by
  intro l
  induction l with
  | nil => intro _; rfl
  | cons a t ih =>
    intro h
    have ha : a.id ≠ i := h a (by simp)
    simp [mapGet, ha, ih (fun x hx => h x (List.mem_cons_of_mem a hx))]

theorem forall_ne_of_mem_mapDelete {i : String} : ∀ {l : List Gadget},
    nodupIds l → ∀ x ∈ mapDelete l i, x.id ≠ i := by
  intro l
  induction l with
  | nil => intro _ x hx; cases hx
  | cons a t ih =>
    intro h x hx
    rcases List.pairwise_cons.mp h with ⟨ha, ht⟩
    by_cases hid : a.id = i
    · simp only [mapDelete, if_pos hid] at hx
      intro he
      exact ha x hx (hid ▸ he ▸ rfl)
    · simp only [mapDelete, if_neg hid, List.mem_cons] at hx
      rcases hx with hx | hx
      · exact hx ▸ hid
      · exact ih ht x hx

theorem mapGet_mapDelete_self {l : List Gadget} {i : String} (h : nodupIds l) :
    mapGet (mapDelete l i) i = none :=
  mapGet_eq_none_of_forall_ne (forall_ne_of_mem_mapDelete h)

theorem mapSet_append_of_forall_ne {g : Gadget} : ∀ {l : List Gadget},
    (∀ a ∈ l, a.id ≠ g.id) → mapSet l g = l ++ [g] := by
  intro l
  induction l with
  | nil => intro _; rfl
  | cons a t ih =>
    intro h
    have ha : a.id ≠ g.id := h a (by simp)
    simp [mapSet, ha, ih (fun b hb => h b (List.mem_cons_of_mem a hb))]

theorem foldl_mapSet_eq : ∀ {l : List Gadget} (acc : List Gadget), nodupIds l →
    (∀ a ∈ acc, ∀ b ∈ l, a.id ≠ b.id) →
    List.foldl mapSet acc l = acc ++ l := by
  intro l
  induction l with
  | nil => intro acc _ _; simp
  | cons g t ih =>
    intro acc h hsep
    rcases List.pairwise_cons.mp h with ⟨hg, ht⟩
    have hstep : mapSet acc g = acc ++ [g] :=
      mapSet_append_of_forall_ne (fun a ha => hsep a ha g (by simp))
    have hrec := ih (acc ++ [g]) ht (fun a ha b hb => by
      rcases List.mem_append.mp ha with ha | ha
      · exact hsep a ha b (List.mem_cons_of_mem g hb)
      · have hag : a = g := by simpa using ha
        exact hag ▸ hg b hb)
    simp only [List.foldl_cons, hstep, hrec, List.append_assoc, List.singleton_append]

/-! Characterization lemmas for the CRUD methods. -/

theorem mem_of_mapGet {i : String} {g : Gadget} : ∀ {l : List Gadget},
    mapGet l i = some g → g ∈ l := by
  intro l
  induction l with
  | nil => intro h; cases h
  | cons a t ih =>
    intro h
    by_cases hid : a.id = i
    · simp only [mapGet, if_pos hid, Option.some.injEq] at h
      simp [h]
    · simp only [mapGet, if_neg hid] at h
      exact List.mem_cons_of_mem a (ih h)

theorem addGadget_invalid (s : EnterpriseGadgetTracker) (freshId : String) (now : Nat)
    {name brand : String} {price : Int} (h : name = "" ∨ brand = "" ∨ price < 0) :
    addGadget s freshId now name brand price = (.error .validationError, s) := by
  unfold addGadget
  rw [if_pos h]

theorem addGadget_valid (s : EnterpriseGadgetTracker) (freshId : String) (now : Nat)
    {name brand : String} {price : Int} (h : ¬(name = "" ∨ brand = "" ∨ price < 0)) :
    addGadget s freshId now name brand price =
      (.ok ⟨freshId, name, brand, price, now⟩,
        ⟨mapSet s.gadgets ⟨freshId, name, brand, price, now⟩,
          s.history ++ [⟨.ADD, snapOf ⟨freshId, name, brand, price, now⟩, now⟩],
          s.version⟩) := by
  unfold addGadget
  rw [if_neg h]

theorem updateGadget_none {s : EnterpriseGadgetTracker} {now : Nat} {id : String}
    {data : GadgetUpdate} (h : mapGet s.gadgets id = none) :
    updateGadget s now id data = (.ok none, s) := by
  unfold updateGadget
  rw [h]

theorem updateGadget_eq {s : EnterpriseGadgetTracker} {now : Nat} {id : String}
    {data : GadgetUpdate} {g : Gadget} (h : mapGet s.gadgets id = some g) :
    updateGadget s now id data =
      match data.price with
      | some p =>
        if p < 0 then
          (.error .validationError,
            ⟨mapSet s.gadgets (applyFields g data), s.history, s.version⟩)
        else
          (.ok (some { applyFields g data with price := p }),
            ⟨mapSet s.gadgets { applyFields g data with price := p },
              s.history ++ [⟨.UPDATE, snapOf { applyFields g data with price := p }, now⟩],
              s.version⟩)
      | none =>
        (.ok (some (applyFields g data)),
          ⟨mapSet s.gadgets (applyFields g data),
            s.history ++ [⟨.UPDATE, snapOf (applyFields g data), now⟩],
            s.version⟩) := by
  unfold updateGadget
  rw [h]
  rcases data with ⟨dn, db, dp⟩
  cases dn <;> cases db <;> cases dp <;> rfl

theorem deleteGadget_none {s : EnterpriseGadgetTracker} {now : Nat} {id : String}
    (h : mapGet s.gadgets id = none) :
    deleteGadget s now id = (false, s) := by
  unfold deleteGadget
  rw [h]

theorem deleteGadget_some {s : EnterpriseGadgetTracker} {now : Nat} {id : String}
    {g : Gadget} (h : mapGet s.gadgets id = some g) :
    deleteGadget s now id =
      (true, ⟨mapDelete s.gadgets id,
        s.history ++ [⟨.DELETE, snapOf g, now⟩], s.version⟩) := by
  unfold deleteGadget
  rw [h]

/-! Store-level invariants preserved by the CRUD operations. -/

theorem nodupIds_applyOp {s : EnterpriseGadgetTracker} (h : nodupIds s.gadgets)
    (op : Op) : nodupIds (applyOp s op).gadgets := by
  cases op with
  | add freshId now name brand price =>
    show nodupIds (addGadget s freshId now name brand price).2.gadgets
    by_cases hv : name = "" ∨ brand = "" ∨ price < 0
    · rw [addGadget_invalid s freshId now hv]
      exact h
    · rw [addGadget_valid s freshId now hv]
      exact nodupIds_mapSet h
  | update now id data =>
    show nodupIds (updateGadget s now id data).2.gadgets
    rcases data with ⟨dn, db, dp⟩
    cases hm : mapGet s.gadgets id with
    | none =>
      rw [updateGadget_none hm]
      exact h
    | some g =>
      rw [updateGadget_eq hm]
      cases dp with
      | none => exact nodupIds_mapSet h
      | some p =>
        by_cases hp : p < 0
        · simp only [if_pos hp]
          exact nodupIds_mapSet h
        · simp only [if_neg hp]
          exact nodupIds_mapSet h
  | del now id =>
    show nodupIds (deleteGadget s now id).2.gadgets
    cases hm : mapGet s.gadgets id with
    | none =>
      rw [deleteGadget_none hm]
      exact h
    | some g =>
      rw [deleteGadget_some hm]
      exact nodupIds_mapDelete h

theorem nodupIds_runOps {s : EnterpriseGadgetTracker} (h : nodupIds s.gadgets)
    (ops : List Op) : nodupIds (runOps s ops).gadgets := by
  induction ops generalizing s with
  | nil => exact h
  | cons op t ih => exact ih (nodupIds_applyOp h op)

theorem version_applyOp (s : EnterpriseGadgetTracker) (op : Op) :
    (applyOp s op).version = s.version := by
  cases op with
  | add freshId now name brand price =>
    show (addGadget s freshId now name brand price).2.version = s.version
    by_cases hv : name = "" ∨ brand = "" ∨ price < 0
    · rw [addGadget_invalid s freshId now hv]
    · rw [addGadget_valid s freshId now hv]
  | update now id data =>
    show (updateGadget s now id data).2.version = s.version
    rcases data with ⟨dn, db, dp⟩
    cases hm : mapGet s.gadgets id with
    | none => rw [updateGadget_none hm]
    | some g =>
      rw [updateGadget_eq hm]
      cases dp with
      | none => rfl
      | some p =>
        by_cases hp : p < 0
        · simp only [if_pos hp]
        · simp only [if_neg hp]
  | del now id =>
    show (deleteGadget s now id).2.version = s.version
    cases hm : mapGet s.gadgets id with
    | none => rw [deleteGadget_none hm]
    | some g => rw [deleteGadget_some hm]

theorem version_runOps (s : EnterpriseGadgetTracker) (ops : List Op) :
    (runOps s ops).version = s.version := by
  induction ops generalizing s with
  | nil => rfl
  | cons op t ih =>
    calc (runOps (applyOp s op) t).version = (applyOp s op).version := ih (applyOp s op)
      _ = s.version := version_applyOp s op

theorem priceInv_applyOp {s : EnterpriseGadgetTracker} (h : priceInv s) (op : Op) :
    priceInv (applyOp s op) := by
  cases op with
  | add freshId now name brand price =>
    show priceInv (addGadget s freshId now name brand price).2
    by_cases hv : name = "" ∨ brand = "" ∨ price < 0
    · rw [addGadget_invalid s freshId now hv]
      exact h
    · rw [addGadget_valid s freshId now hv]
      intro x hx
      rcases mem_mapSet hx with hx | hx
      · exact h x hx
      · have hp : ¬price < 0 := fun hp => hv (.inr (.inr hp))
        rw [hx]
        exact Int.not_lt.mp hp
  | update now id data =>
    show priceInv (updateGadget s now id data).2
    rcases data with ⟨dn, db, dp⟩
    cases hm : mapGet s.gadgets id with
    | none =>
      rw [updateGadget_none hm]
      exact h
    | some g =>
      have hg : 0 ≤ g.price := h g (mem_of_mapGet hm)
      rw [updateGadget_eq hm]
      cases dp with
      | none =>
        intro x hx
        rcases mem_mapSet hx with hx | hx
        · exact h x hx
        · rw [hx]
          exact hg
      | some p =>
        by_cases hp : p < 0
        · simp only [if_pos hp]
          intro x hx
          rcases mem_mapSet hx with hx | hx
          · exact h x hx
          · rw [hx]
            exact hg
        · simp only [if_neg hp]
          intro x hx
          rcases mem_mapSet hx with hx | hx
          · exact h x hx
          · rw [hx]
            exact Int.not_lt.mp hp
  | del now id =>
    show priceInv (deleteGadget s now id).2
    cases hm : mapGet s.gadgets id with
    | none =>
      rw [deleteGadget_none hm]
      exact h
    | some g =>
      rw [deleteGadget_some hm]
      intro x hx
      exact h x (mem_mapDelete hx)

/-! Stability of the sort used by `listGadgets`: records with equal
timestamps keep their relative map order, stated as preservation of the
filtered sublist at every timestamp. -/

theorem filter_orderedInsert_addedAt (t : Nat) (a : Gadget) : ∀ l : List Gadget,
    (l.orderedInsert gadgetGe a).filter (fun g => g.addedAt == t) =
      ((a :: l).filter (fun g => g.addedAt == t)) := by
  intro l
  induction l with
  | nil => rfl
  | cons b l ih =>
    by_cases hr : gadgetGe a b
    · simp [List.orderedInsert, if_pos hr]
    · have hlt : a.addedAt < b.addedAt := by
        unfold gadgetGe at hr
        omega
      simp only [List.orderedInsert, if_neg hr]
      by_cases ha : a.addedAt = t
      · have hb : ¬b.addedAt = t := by omega
        simp [List.filter_cons, ha, hb, ih]
      · simp [List.filter_cons, ha, ih]

theorem filter_insertionSort_addedAt (t : Nat) : ∀ l : List Gadget,
    (l.insertionSort gadgetGe).filter (fun g => g.addedAt == t) =
      l.filter (fun g => g.addedAt == t) := by
  intro l
  induction l with
  | nil => rfl
  | cons a l ih =>
    show ((l.insertionSort gadgetGe).orderedInsert gadgetGe a).filter
        (fun g => g.addedAt == t) = ((a :: l).filter (fun g => g.addedAt == t))
    rw [filter_orderedInsert_addedAt]
    simp [List.filter_cons, ih]

namespace RefModel

theorem lookupLive_mem {i : String} {r : Ref} : ∀ {l : List (String × Ref)},
    lookupLive l i = some r → ∃ k, (k, r) ∈ l := by
  intro l
  induction l with
  | nil => intro h; cases h
  | cons p t ih =>
    intro h
    by_cases hp : p.1 = i
    · simp only [lookupLive, if_pos hp, Option.some.injEq] at h
      refine ⟨p.1, ?_⟩
      rw [← h]
      simp
    · simp only [lookupLive, if_neg hp] at h
      rcases ih h with ⟨k, hk⟩
      exact ⟨k, List.mem_cons_of_mem p hk⟩

theorem derefR_set_ne {h : List GObj} {r x : Ref} {v : GObj} (hne : x ≠ r) :
    derefR (h.set r v) x = derefR h x := by
  unfold derefR
  rw [List.getD_eq_getElem?_getD, List.getD_eq_getElem?_getD,
    List.getElem?_set_ne (fun he => hne he.symm)]

theorem derefR_append_left {h : List GObj} {v : GObj} {x : Ref} (hx : x < h.length) :
    derefR (h ++ [v]) x = derefR h x := by
  unfold derefR
  rw [List.getD_eq_getElem?_getD, List.getD_eq_getElem?_getD,
    List.getElem?_append_left hx]

theorem updateGadgetR_none {s : StoreR} {now : Nat} {id : String}
    {data : GadgetUpdate} (h : lookupLive s.live id = none) :
    updateGadgetR s now id data = (.ok none, s) := by
  unfold updateGadgetR
  rw [h]

theorem updateGadgetR_eq {s : StoreR} {now : Nat} {id : String}
    {data : GadgetUpdate} {r : Ref} (h : lookupLive s.live id = some r) :
    updateGadgetR s now id data =
      match data.price with
      | some p =>
        if p < 0 then
          (.error .validationError,
            ⟨s.heap.set r (applyFieldsObj (derefR s.heap r) data), s.live, s.hist⟩)
        else
          (.ok (some r),
            recordHistoryR
              ⟨(s.heap.set r (applyFieldsObj (derefR s.heap r) data)).set r
                  { applyFieldsObj (derefR s.heap r) data with price := p },
                s.live, s.hist⟩
              .UPDATE { applyFieldsObj (derefR s.heap r) data with price := p } now)
      | none =>
        (.ok (some r),
          recordHistoryR
            ⟨s.heap.set r (applyFieldsObj (derefR s.heap r) data), s.live, s.hist⟩
            .UPDATE (applyFieldsObj (derefR s.heap r) data) now) := by
  unfold updateGadgetR
  rw [h]
  rcases data with ⟨dn, db, dp⟩
  cases dn <;> cases db <;> cases dp <;> rfl

theorem updateGadgetR_some_neg {s : StoreR} {now : Nat} {id : String}
    {data : GadgetUpdate} {r : Ref} {p : Int} (h : lookupLive s.live id = some r)
    (hp : data.price = some p) (hneg : p < 0) :
    updateGadgetR s now id data =
      (.error .validationError,
        ⟨s.heap.set r (applyFieldsObj (derefR s.heap r) data), s.live, s.hist⟩) := by
  rw [updateGadgetR_eq h, hp]
  simp only [if_pos hneg]

theorem updateGadgetR_some_pos {s : StoreR} {now : Nat} {id : String}
    {data : GadgetUpdate} {r : Ref} {p : Int} (h : lookupLive s.live id = some r)
    (hp : data.price = some p) (hpos : ¬p < 0) :
    updateGadgetR s now id data =
      (.ok (some r),
        recordHistoryR
          ⟨(s.heap.set r (applyFieldsObj (derefR s.heap r) data)).set r
              { applyFieldsObj (derefR s.heap r) data with price := p },
            s.live, s.hist⟩
          .UPDATE { applyFieldsObj (derefR s.heap r) data with price := p } now) := by
  rw [updateGadgetR_eq h, hp]
  simp only [if_neg hpos]

theorem updateGadgetR_some_none {s : StoreR} {now : Nat} {id : String}
    {data : GadgetUpdate} {r : Ref} (h : lookupLive s.live id = some r)
    (hp : data.price = none) :
    updateGadgetR s now id data =
      (.ok (some r),
        recordHistoryR
          ⟨s.heap.set r (applyFieldsObj (derefR s.heap r) data), s.live, s.hist⟩
          .UPDATE (applyFieldsObj (derefR s.heap r) data) now) := by
  rw [updateGadgetR_eq h, hp]

/-- In-place mutation of an allocated object preserves the ownership
invariant: it changes no reference structure at all. -/
theorem WFR_set {s : StoreR} (r : Ref) (v : GObj) (hwf : WFR s) :
    WFR ⟨s.heap.set r v, s.live, s.hist⟩ := by
  rcases hwf with ⟨hlive, hhist⟩
  refine ⟨fun q hq => ?_, fun e he => ⟨?_, fun q hq => (hhist e he).2 q hq⟩⟩
  · show q.2 < (s.heap.set r v).length
    simpa using hlive q hq
  · show e.gadget < (s.heap.set r v).length
    simpa using (hhist e he).1

/-- Recording a history entry preserves the ownership invariant: the
snapshot is a fresh allocation, referenced by no live-map entry. -/
theorem WFR_recordHistoryR {s : StoreR} (a : GadgetAction) (v : GObj) (now : Nat)
    (hwf : WFR s) : WFR (recordHistoryR s a v now) := by
  rcases hwf with ⟨hlive, hhist⟩
  refine ⟨fun q hq => ?_, fun e he => ?_⟩
  · show q.2 < (s.heap ++ [v]).length
    simp only [List.length_append, List.length_singleton]
    exact Nat.lt_succ_of_lt (hlive q hq)
  · simp only [recordHistoryR, List.mem_append, List.mem_singleton] at he
    rcases he with he | he
    · refine ⟨?_, fun q hq => (hhist e he).2 q hq⟩
      show e.gadget < (s.heap ++ [v]).length
      simp only [List.length_append, List.length_singleton]
      exact Nat.lt_succ_of_lt (hhist e he).1
    · subst he
      refine ⟨?_, fun q hq => ?_⟩
      · show s.heap.length < (s.heap ++ [v]).length
        simp
      · show s.heap.length ≠ q.2
        exact (Nat.ne_of_lt (hlive q hq)).symm

/-- The ownership invariant is preserved by `updateGadget`: the in-place
mutation touches only the live object, and the snapshot recorded afterwards
is a fresh allocation outside the live map. -/
theorem WFR_updateGadgetR {s : StoreR} (now : Nat) (id : String)
    (data : GadgetUpdate) (hwf : WFR s) : WFR (updateGadgetR s now id data).2 := by
  cases hm : lookupLive s.live id with
  | none =>
    rw [updateGadgetR_none hm]
    exact hwf
  | some r =>
    cases hp : data.price with
    | none =>
      rw [updateGadgetR_some_none hm hp]
      exact WFR_recordHistoryR _ _ _ (WFR_set r _ hwf)
    | some p =>
      by_cases hneg : p < 0
      · rw [updateGadgetR_some_neg hm hp hneg]
        exact WFR_set r _ hwf
      · rw [updateGadgetR_some_pos hm hp hneg]
        exact WFR_recordHistoryR _ _ _ (WFR_set r _ (WFR_set r _ hwf))

theorem mem_liveSet {i : String} {r : Ref} {q : String × Ref} :
    ∀ {l : List (String × Ref)}, q ∈ liveSet l i r → q ∈ l ∨ q = (i, r) := by
  intro l
  induction l with
  | nil => intro hq; simpa [liveSet] using hq
  | cons p t ih =>
    intro hq
    by_cases hp : p.1 = i
    · simp only [liveSet, if_pos hp, List.mem_cons] at hq
      rcases hq with hq | hq
      · exact .inr hq
      · exact .inl (List.mem_cons_of_mem p hq)
    · simp only [liveSet, if_neg hp, List.mem_cons] at hq
      rcases hq with hq | hq
      · exact .inl (by simp [hq])
      · rcases ih hq with h | h
        · exact .inl (List.mem_cons_of_mem p h)
        · exact .inr h

theorem mem_liveDelete {i : String} {q : String × Ref} :
    ∀ {l : List (String × Ref)}, q ∈ liveDelete l i → q ∈ l := by
  intro l
  induction l with
  | nil => intro hq; cases hq
  | cons p t ih =>
    intro hq
    by_cases hp : p.1 = i
    · simp only [liveDelete, if_pos hp] at hq
      exact List.mem_cons_of_mem p hq
    · simp only [liveDelete, if_neg hp, List.mem_cons] at hq
      rcases hq with hq | hq
      · exact List.mem_cons.mpr (.inl hq)
      · exact List.mem_cons_of_mem p (ih hq)

theorem addGadgetR_invalid (s : StoreR) (freshId : String) (now : Nat)
    {name brand : String} {price : Int} (h : name = "" ∨ brand = "" ∨ price < 0) :
    addGadgetR s freshId now name brand price = (.error .validationError, s) := by
  unfold addGadgetR
  rw [if_pos h]

theorem addGadgetR_valid (s : StoreR) (freshId : String) (now : Nat)
    {name brand : String} {price : Int} (h : ¬(name = "" ∨ brand = "" ∨ price < 0)) :
    addGadgetR s freshId now name brand price =
      (.ok s.heap.length,
        recordHistoryR
          ⟨s.heap ++ [⟨freshId, name, brand, price, now⟩],
            liveSet s.live freshId s.heap.length, s.hist⟩
          .ADD ⟨freshId, name, brand, price, now⟩ now) := by
  unfold addGadgetR
  rw [if_neg h]

theorem deleteGadgetR_none {s : StoreR} {now : Nat} {id : String}
    (h : lookupLive s.live id = none) : deleteGadgetR s now id = (false, s) := by
  unfold deleteGadgetR
  rw [h]

theorem deleteGadgetR_some {s : StoreR} {now : Nat} {id : String} {r : Ref}
    (h : lookupLive s.live id = some r) :
    deleteGadgetR s now id =
      (true, recordHistoryR ⟨s.heap, liveDelete s.live id, s.hist⟩
        .DELETE (derefR s.heap r) now) := by
  unfold deleteGadgetR
  rw [h]

/-- The ownership invariant is preserved by `addGadget`. -/
theorem WFR_addGadgetR {s : StoreR} (freshId : String) (now : Nat)
    (name brand : String) (price : Int) (hwf : WFR s) :
    WFR (addGadgetR s freshId now name brand price).2 := by
  rcases hwf with ⟨hlive, hhist⟩
  by_cases hv : name = "" ∨ brand = "" ∨ price < 0
  · rw [addGadgetR_invalid s freshId now hv]
    exact ⟨hlive, hhist⟩
  · rw [addGadgetR_valid s freshId now hv]
    refine WFR_recordHistoryR _ _ _ ⟨fun q hq => ?_, fun e he => ⟨?_, fun q hq => ?_⟩⟩
    · show q.2 < (s.heap ++ [_]).length
      simp only [List.length_append, List.length_singleton]
      rcases mem_liveSet hq with hq | hq
      · exact Nat.lt_succ_of_lt (hlive q hq)
      · rw [hq]
        exact Nat.lt_succ_self _
    · show e.gadget < (s.heap ++ [_]).length
      simp only [List.length_append, List.length_singleton]
      exact Nat.lt_succ_of_lt (hhist e he).1
    · rcases mem_liveSet hq with hq | hq
      · exact (hhist e he).2 q hq
      · rw [hq]
        exact Nat.ne_of_lt (hhist e he).1
  
/-- The ownership invariant is preserved by `deleteGadget`. -/
theorem WFR_deleteGadgetR {s : StoreR} (now : Nat) (id : String) (hwf : WFR s) :
    WFR (deleteGadgetR s now id).2 := by
  rcases hwf with ⟨hlive, hhist⟩
  cases hm : lookupLive s.live id with
  | none =>
    rw [deleteGadgetR_none hm]
    exact ⟨hlive, hhist⟩
  | some r =>
    rw [deleteGadgetR_some hm]
    refine WFR_recordHistoryR _ _ _
      ⟨fun q hq => hlive q (mem_liveDelete hq),
       fun e he => ⟨(hhist e he).1, fun q hq => (hhist e he).2 q (mem_liveDelete hq)⟩⟩

/-- The ownership invariant is preserved by every CRUD call. -/
theorem WFR_applyOpR {s : StoreR} (hwf : WFR s) (op : Op) : WFR (applyOpR s op) := by
  cases op with
  | add freshId now name brand price => exact WFR_addGadgetR freshId now name brand price hwf
  | update now id data => exact WFR_updateGadgetR now id data hwf
  | del now id => exact WFR_deleteGadgetR now id hwf

/-- The ownership invariant holds in every reachable store. -/
theorem WFR_runOpsR {s : StoreR} (hwf : WFR s) (ops : List Op) :
    WFR (runOpsR s ops) := by
  induction ops generalizing s with
  | nil => exact hwf
  | cons op t ih => exact ih (WFR_applyOpR hwf op)

theorem WFR_emptyR : WFR emptyR := by
  constructor
  · intro q hq
    cases hq
  · intro e he
    cases he

end RefModel

/-! Further characterizations: update spot lemmas, serialization round trip,
and the two outcomes of an import. -/

theorem mapGet_id {i : String} {g : Gadget} : ∀ {l : List Gadget},
    mapGet l i = some g → g.id = i := by
  intro l
  induction l with
  | nil => intro h; cases h
  | cons a t ih =>
    intro h
    by_cases hp : a.id = i
    · simp only [mapGet, if_pos hp, Option.some.injEq] at h
      rw [← h]
      exact hp
    · simp only [mapGet, if_neg hp] at h
      exact ih h

theorem mapSet_self {i : String} {g : Gadget} : ∀ {l : List Gadget},
    mapGet l i = some g → mapSet l g = l := by
  intro l
  induction l with
  | nil => intro h; cases h
  | cons a t ih =>
    intro h
    by_cases hp : a.id = i
    · simp only [mapGet, if_pos hp, Option.some.injEq] at h
      have : a.id = g.id := by rw [← h]
      simp [mapSet, this, ← h]
    · simp only [mapGet, if_neg hp] at h
      have hne : a.id ≠ g.id := by
        rw [mapGet_id h]
        exact hp
      simp [mapSet, hne, ih h]

theorem updateGadget_some_neg {s : EnterpriseGadgetTracker} {now : Nat} {id : String}
    {data : GadgetUpdate} {g : Gadget} {p : Int} (h : mapGet s.gadgets id = some g)
    (hp : data.price = some p) (hneg : p < 0) :
    updateGadget s now id data =
      (.error .validationError,
        ⟨mapSet s.gadgets (applyFields g data), s.history, s.version⟩) := by
  rw [updateGadget_eq h, hp]
  simp only [if_pos hneg]

theorem updateGadget_some_pos {s : EnterpriseGadgetTracker} {now : Nat} {id : String}
    {data : GadgetUpdate} {g : Gadget} {p : Int} (h : mapGet s.gadgets id = some g)
    (hp : data.price = some p) (hpos : ¬p < 0) :
    updateGadget s now id data =
      (.ok (some { applyFields g data with price := p }),
        ⟨mapSet s.gadgets { applyFields g data with price := p },
          s.history ++ [⟨.UPDATE, snapOf { applyFields g data with price := p }, now⟩],
          s.version⟩) := by
  rw [updateGadget_eq h, hp]
  simp only [if_neg hpos]

theorem updateGadget_some_noprice {s : EnterpriseGadgetTracker} {now : Nat} {id : String}
    {data : GadgetUpdate} {g : Gadget} (h : mapGet s.gadgets id = some g)
    (hp : data.price = none) :
    updateGadget s now id data =
      (.ok (some (applyFields g data)),
        ⟨mapSet s.gadgets (applyFields g data),
          s.history ++ [⟨.UPDATE, snapOf (applyFields g data), now⟩],
          s.version⟩) := by
  rw [updateGadget_eq h, hp]

theorem gadgetOfWire_wireOfGadget (g : Gadget) : gadgetOfWire (wireOfGadget g) = g := rfl

theorem entryOfWire_wireOfEntry (e : GadgetHistoryEntry) :
    entryOfWire (wireOfEntry e) = reSnap e := rfl

theorem decryptAES_encryptAES (key : CipherKey) (iv : Nat) (payload : ExportPayload) :
    decryptAES key iv (encryptAES key iv payload) = some payload := by
  unfold decryptAES encryptAES
  rw [if_pos ⟨rfl, rfl⟩]

theorem decryptAES_wrong_key {key key2 : CipherKey} (iv iv2 : Nat)
    (payload : ExportPayload) (hne : key2 ≠ key) :
    decryptAES key2 iv2 (encryptAES key iv payload) = none := by
  unfold decryptAES encryptAES
  rw [if_neg]
  intro hand
  exact hne hand.1.symm

theorem importEncrypted_fail {s : EnterpriseGadgetTracker} {e : EncryptedExport}
    {secret : String} (h : decryptAES (createKey secret) e.iv e.data = none) :
    importEncrypted s e secret = (.error .decryptionError, s) := by
  unfold importEncrypted
  rw [h]

theorem importEncrypted_ok {s : EnterpriseGadgetTracker} {e : EncryptedExport}
    {secret : String} {payload : ExportPayload}
    (h : decryptAES (createKey secret) e.iv e.data = some payload) :
    importEncrypted s e secret =
      (.ok (),
        ⟨payload.gadgets.foldl (fun m w => mapSet m (gadgetOfWire w)) [],
          payload.history.map entryOfWire,
          if payload.version = 0 then 1 else payload.version⟩) := by
  unfold importEncrypted
  rw [h]

/-! Claim theorems. -/

/-- C5: a call to `addGadget` with an empty name, an empty brand, or a
negative price always fails with ValidationError and stores nothing: the
resulting store, including its mapping and its history, is exactly the
store from before the call. -/
theorem addGadget_invalid_rejected (s : EnterpriseGadgetTracker) (freshId : String)
    (now : Nat) (name brand : String) (price : Int)
    (h : name = "" ∨ brand = "" ∨ price < 0) :
    addGadget s freshId now name brand price = (.error .validationError, s) :=
  addGadget_invalid s freshId now h

/-- Witness for C5 at an empty name on the fresh store. -/
theorem addGadget_invalid_rejected_witness :
    ("" = "" ∨ "Apple" = "" ∨ (2499 : Int) < 0) ∧
      addGadget emptyTracker "gadget-a" 5 "" "Apple" 2499 =
        (.error .validationError, emptyTracker) :=
  ⟨.inl rfl,
    addGadget_invalid_rejected emptyTracker "gadget-a" 5 "" "Apple" 2499 (.inl rfl)⟩

/-- C10: the constructor installs every supplied record verbatim into the
mapping keyed by its id, with no validation of name, brand or price (the
statement imposes no validity hypotheses on the records), the history
starts empty and the version starts at 1; the supplied ids are taken
pairwise distinct so that every record is retained in the mapping. -/
theorem mkTracker_installs_verbatim (initial : List Gadget)
    (hd : initial.Pairwise (fun a b => a.id ≠ b.id)) :
    (∀ g ∈ initial, mapGet (mkTracker initial).gadgets g.id = some g)
  ∧ (mkTracker initial).history = []
  ∧ (mkTracker initial).version = 1 := by
  refine ⟨?_, rfl, rfl⟩
  intro g hg
  have hgl : (mkTracker initial).gadgets = initial := by
    show initial.foldl mapSet [] = initial
    have hfold := foldl_mapSet_eq [] hd (by intro a ha; cases ha)
    simpa using hfold
  rw [hgl]
  exact mapGet_self_of_nodup hd hg

/-- Witness for C10 on records that violate every validation rule. -/
theorem mkTracker_installs_verbatim_witness :
    (([⟨"a", "", "", -5, 0⟩, ⟨"b", "X", "Y", 3, 1⟩] : List Gadget).Pairwise
        (fun a b => a.id ≠ b.id))
  ∧ ((∀ g ∈ ([⟨"a", "", "", -5, 0⟩, ⟨"b", "X", "Y", 3, 1⟩] : List Gadget),
        mapGet (mkTracker [⟨"a", "", "", -5, 0⟩, ⟨"b", "X", "Y", 3, 1⟩]).gadgets g.id
          = some g)
      ∧ (mkTracker [⟨"a", "", "", -5, 0⟩, ⟨"b", "X", "Y", 3, 1⟩]).history = []
      ∧ (mkTracker [⟨"a", "", "", -5, 0⟩, ⟨"b", "X", "Y", 3, 1⟩]).version = 1) :=
  ⟨by decide, mkTracker_installs_verbatim _ (by decide)⟩

/-- C7: `listGadgets` returns exactly the stored records (a permutation of
the mapping contents), sorted by addedAt descending, and the sort is
stable: for every timestamp value, the records carrying it appear in the
same relative order as in the mapping, so the order is deterministic for
records with equal timestamps. -/
theorem listGadgets_sorted_desc_stable (s : EnterpriseGadgetTracker) :
    (listGadgets s).Perm s.gadgets
  ∧ (listGadgets s).Pairwise (fun a b => b.addedAt ≤ a.addedAt)
  ∧ (∀ t : Nat, (listGadgets s).filter (fun g => g.addedAt == t) =
      s.gadgets.filter (fun g => g.addedAt == t)) :=
  ⟨List.perm_insertionSort gadgetGe s.gadgets,
    List.sorted_insertionSort gadgetGe s.gadgets,
    fun t => filter_insertionSort_addedAt t s.gadgets⟩

/-- C8: `updateGadget` on an absent id returns a not-found value without an
exception and leaves the store, history included, untouched; on a present
id with a valid input (any provided price non-negative) it stores the
record with exactly the provided fields replaced — omitted fields, the id
and addedAt keep their prior values — and appends one UPDATE entry. -/
theorem updateGadget_spec (s : EnterpriseGadgetTracker) (now : Nat) (id : String)
    (data : GadgetUpdate) :
    (mapGet s.gadgets id = none → updateGadget s now id data = (.ok none, s))
  ∧ (∀ g, mapGet s.gadgets id = some g → (∀ p, data.price = some p → 0 ≤ p) →
      updateGadget s now id data =
        (.ok (some ⟨g.id, data.name.getD g.name, data.brand.getD g.brand,
            data.price.getD g.price, g.addedAt⟩),
          ⟨mapSet s.gadgets ⟨g.id, data.name.getD g.name, data.brand.getD g.brand,
              data.price.getD g.price, g.addedAt⟩,
            s.history ++ [⟨.UPDATE, snapOf ⟨g.id, data.name.getD g.name,
              data.brand.getD g.brand, data.price.getD g.price, g.addedAt⟩, now⟩],
            s.version⟩)) := by
  constructor
  · exact updateGadget_none
  · intro g hg hval
    cases hp : data.price with
    | none =>
      rw [updateGadget_some_noprice hg hp]
      rfl
    | some p =>
      have hpos : ¬p < 0 := Int.not_lt.mpr (hval p hp)
      rw [updateGadget_some_pos hg hp hpos]
      rfl

/-- Witness for C8: an absent id, then a present id updated with a new name
and price while the brand is omitted. -/
theorem updateGadget_spec_witness :
    updateGadget ⟨[⟨"g1", "A", "B", 10, 3⟩], [], 1⟩ 9 "zz" ⟨some "X", none, some 7⟩ =
      (.ok none, ⟨[⟨"g1", "A", "B", 10, 3⟩], [], 1⟩)
  ∧ updateGadget ⟨[⟨"g1", "A", "B", 10, 3⟩], [], 1⟩ 9 "g1" ⟨some "X", none, some 7⟩ =
      (.ok (some ⟨"g1", "X", "B", 7, 3⟩),
        ⟨[⟨"g1", "X", "B", 7, 3⟩], [⟨.UPDATE, snapOf ⟨"g1", "X", "B", 7, 3⟩, 9⟩], 1⟩) :=
  ⟨(updateGadget_spec ⟨[⟨"g1", "A", "B", 10, 3⟩], [], 1⟩ 9 "zz"
      ⟨some "X", none, some 7⟩).1 (by decide),
    (updateGadget_spec ⟨[⟨"g1", "A", "B", 10, 3⟩], [], 1⟩ 9 "g1"
      ⟨some "X", none, some 7⟩).2 ⟨"g1", "A", "B", 10, 3⟩ (by decide)
      (fun p hp => by cases hp; decide)⟩

/-- C6: `deleteGadget` returns false on an absent id, leaving the store
unchanged, and true on a present id; in the latter case the record is
removed — its id no longer resolves in the mapping and no record with that
id appears in `listGadgets` — and exactly one DELETE entry is appended,
carrying the pre-removal field values.  Ids are unique in any store built
through the tracker operations (hypothesis `nodupIds`). -/
theorem deleteGadget_spec (s : EnterpriseGadgetTracker) (now : Nat) (id : String)
    (hnd : nodupIds s.gadgets) :
    (mapGet s.gadgets id = none → deleteGadget s now id = (false, s))
  ∧ (∀ g, mapGet s.gadgets id = some g →
      deleteGadget s now id =
        (true, ⟨mapDelete s.gadgets id,
          s.history ++ [⟨.DELETE, snapOf g, now⟩], s.version⟩)
      ∧ mapGet (deleteGadget s now id).2.gadgets id = none
      ∧ ∀ x ∈ listGadgets (deleteGadget s now id).2, x.id ≠ id) := by
  constructor
  · exact deleteGadget_none
  · intro g hg
    refine ⟨deleteGadget_some hg, ?_, ?_⟩
    · rw [deleteGadget_some hg]
      exact mapGet_mapDelete_self hnd
    · intro x hx
      rw [deleteGadget_some hg] at hx
      have hx2 : x ∈ mapDelete s.gadgets id := (List.mem_insertionSort gadgetGe).mp hx
      exact forall_ne_of_mem_mapDelete hnd x hx2

/-- Witness for C6: an absent id, then deletion of the only record. -/
theorem deleteGadget_spec_witness :
    nodupIds [⟨"g1", "A", "B", 10, 3⟩]
  ∧ deleteGadget ⟨[⟨"g1", "A", "B", 10, 3⟩], [], 1⟩ 9 "zz" =
      (false, ⟨[⟨"g1", "A", "B", 10, 3⟩], [], 1⟩)
  ∧ deleteGadget ⟨[⟨"g1", "A", "B", 10, 3⟩], [], 1⟩ 9 "g1" =
      (true, ⟨[], [⟨.DELETE, snapOf ⟨"g1", "A", "B", 10, 3⟩, 9⟩], 1⟩) :=
  ⟨by decide,
    (deleteGadget_spec ⟨[⟨"g1", "A", "B", 10, 3⟩], [], 1⟩ 9 "zz" (by decide)).1
      (by decide),
    ((deleteGadget_spec ⟨[⟨"g1", "A", "B", 10, 3⟩], [], 1⟩ 9 "g1" (by decide)).2
      ⟨"g1", "A", "B", 10, 3⟩ (by decide)).1⟩

/-- C3 counterexample: on a store holding a gadget named A, an update that
provides a new name together with a negative price throws ValidationError
but has already renamed the stored record — the record is not left
unchanged, refuting the all-or-nothing reading. -/
theorem updateGadget_negative_price_counterexample :
    updateGadget ⟨[⟨"g1", "A", "B", 10, 0⟩], [], 1⟩ 9 "g1" ⟨some "X", none, some (-1)⟩ =
      (.error .validationError, ⟨[⟨"g1", "X", "B", 10, 0⟩], [], 1⟩)
  ∧ (⟨[⟨"g1", "X", "B", 10, 0⟩], [], 1⟩ : EnterpriseGadgetTracker) ≠
      ⟨[⟨"g1", "A", "B", 10, 0⟩], [], 1⟩ :=
  ⟨rfl, by decide⟩

/-- C3 amended: with a provided negative price, `updateGadget` fails with
ValidationError, appends no history entry, and never assigns the negative
price — the stored price, id and addedAt are unchanged — and when the
input provides only a price the stored record and the whole store are
entirely unchanged; provided name and brand fields, however, are applied
to the stored record before the failing price check. -/
theorem updateGadget_negative_price (s : EnterpriseGadgetTracker) (now : Nat)
    (id : String) (data : GadgetUpdate) (g : Gadget) (p : Int)
    (hg : mapGet s.gadgets id = some g) (hp : data.price = some p) (hneg : p < 0) :
    updateGadget s now id data =
      (.error .validationError,
        ⟨mapSet s.gadgets (applyFields g data), s.history, s.version⟩)
  ∧ (applyFields g data).id = g.id
  ∧ (applyFields g data).price = g.price
  ∧ (applyFields g data).addedAt = g.addedAt
  ∧ (data.name = none → data.brand = none → (updateGadget s now id data).2 = s) := by
  refine ⟨updateGadget_some_neg hg hp hneg, rfl, rfl, rfl, ?_⟩
  intro hn hb
  rw [updateGadget_some_neg hg hp hneg]
  show (⟨mapSet s.gadgets (applyFields g data), s.history, s.version⟩ :
      EnterpriseGadgetTracker) = s
  have happ : applyFields g data = g := by
    unfold applyFields
    rw [hn, hb]
    rfl
  rw [happ, mapSet_self hg]

/-- Witness for C3 amended: a price-only update with a negative price on a
store holding one record, which is left entirely unchanged. -/
theorem updateGadget_negative_price_witness :
    (mapGet [⟨"g1", "A", "B", 10, 0⟩] "g1" = some ⟨"g1", "A", "B", 10, 0⟩)
  ∧ ((⟨none, none, some (-1)⟩ : GadgetUpdate).price = some (-1))
  ∧ ((-1 : Int) < 0)
  ∧ (updateGadget ⟨[⟨"g1", "A", "B", 10, 0⟩], [], 1⟩ 9 "g1" ⟨none, none, some (-1)⟩).2 =
      ⟨[⟨"g1", "A", "B", 10, 0⟩], [], 1⟩ :=
  ⟨by decide, rfl, by decide,
    (updateGadget_negative_price ⟨[⟨"g1", "A", "B", 10, 0⟩], [], 1⟩ 9 "g1"
        ⟨none, none, some (-1)⟩ ⟨"g1", "A", "B", 10, 0⟩ (-1)
        (by decide) rfl (by decide)).2.2.2.2 rfl rfl⟩

/-- C4 counterexample: the constructor installs records without validation,
so a store can hold a gadget with empty name, empty brand and negative
price; the data-model invariant does not survive every operation. -/
theorem gadget_invariant_counterexample :
    ¬ ∀ g ∈ (mkTracker [⟨"a", "", "", -5, 0⟩]).gadgets,
        g.name ≠ "" ∧ g.brand ≠ "" ∧ 0 ≤ g.price := by
  decide

/-- C4 amended: the price component of the invariant is preserved by every
sequence of add, update and delete calls from any store satisfying it —
these methods never store a negative price — but the constructor and
the import install records unvalidated and update accepts empty name and brand
fields, so the full data-model invariant is not maintained by the code. -/
theorem price_invariant_preserved (s : EnterpriseGadgetTracker) (ops : List Op)
    (h : priceInv s) : priceInv (runOps s ops) := by
  induction ops generalizing s with
  | nil => exact h
  | cons op t ih => exact ih (applyOp s op) (priceInv_applyOp h op)

/-- Witness for C4 amended: a run with a rejected negative update in the
middle still satisfies the price invariant. -/
theorem price_invariant_preserved_witness :
    priceInv emptyTracker
  ∧ priceInv (runOps emptyTracker
      [.add "g1" 1 "MacBook" "Apple" 2499,
       .update 2 "g1" ⟨none, none, some (-7)⟩,
       .update 3 "g1" ⟨some "Mac", none, some 2399⟩,
       .del 4 "g1"]) :=
  ⟨by decide,
    price_invariant_preserved emptyTracker
      [.add "g1" 1 "MacBook" "Apple" 2499,
       .update 2 "g1" ⟨none, none, some (-7)⟩,
       .update 3 "g1" ⟨some "Mac", none, some 2399⟩,
       .del 4 "g1"] (by decide)⟩

/-- C2: a failing `importEncrypted` never mutates the target store — every
error outcome returns the prior state, since all throwing statements
precede the first mutation — and importing an export made under a
different secret always fails with DecryptionError, the target left
untouched. -/
theorem importEncrypted_wrong_secret (s target : EnterpriseGadgetTracker)
    (e : EncryptedExport) (secret secret2 : String) (iv : Nat)
    (hne : secret2 ≠ secret) :
    (∀ err, (importEncrypted target e secret2).1 = .error err →
      (importEncrypted target e secret2).2 = target)
  ∧ importEncrypted target (exportEncrypted s secret iv) secret2 =
      (.error .decryptionError, target) := by
  constructor
  · intro err herr
    cases hd : decryptAES (createKey secret2) e.iv e.data with
    | none => rw [importEncrypted_fail hd]
    | some payload =>
      rw [importEncrypted_ok hd] at herr
      simp at herr
  · refine importEncrypted_fail ?_
    show decryptAES (createKey secret2) iv
      (encryptAES (createKey secret) iv
        ⟨s.gadgets.map wireOfGadget, s.history.map wireOfEntry, s.version⟩) = none
    refine decryptAES_wrong_key iv iv _ ?_
    intro hk
    exact hne (congrArg CipherKey.digest hk)

/-- Witness for C2 at two concrete distinct secrets. -/
theorem importEncrypted_wrong_secret_witness :
    ("bad" ≠ "good")
  ∧ importEncrypted emptyTracker
      (exportEncrypted ⟨[⟨"g1", "A", "B", 10, 3⟩], [], 1⟩ "good" 7) "bad" =
      (.error .decryptionError, emptyTracker) :=
  ⟨by decide,
    (importEncrypted_wrong_secret ⟨[⟨"g1", "A", "B", 10, 3⟩], [], 1⟩ emptyTracker
      (exportEncrypted ⟨[⟨"g1", "A", "B", 10, 3⟩], [], 1⟩ "good" 7)
      "good" "bad" 7 (by decide)).2⟩

/-- Helper for C1: importing an export into the fresh store reproduces the
gadget mapping exactly and reproduces the history up to the serialized
form of each snapshot addedAt field; the version is re-read through the
falsy-defaults-to-1 rule. -/
theorem roundTrip_general (s : EnterpriseGadgetTracker) (hnd : nodupIds s.gadgets)
    (secret : String) (iv : Nat) :
    importEncrypted emptyTracker (exportEncrypted s secret iv) secret =
      (.ok (), ⟨s.gadgets, s.history.map reSnap,
        if s.version = 0 then 1 else s.version⟩) := by
  have hstep : importEncrypted emptyTracker (exportEncrypted s secret iv) secret =
      (.ok (),
        ⟨(s.gadgets.map wireOfGadget).foldl (fun m w => mapSet m (gadgetOfWire w)) [],
          (s.history.map wireOfEntry).map entryOfWire,
          if s.version = 0 then 1 else s.version⟩) := by
    rw [importEncrypted_ok (decryptAES_encryptAES (createKey secret) iv
      ⟨s.gadgets.map wireOfGadget, s.history.map wireOfEntry, s.version⟩)]
  have hg : (s.gadgets.map wireOfGadget).foldl (fun m w => mapSet m (gadgetOfWire w)) []
      = s.gadgets := by
    rw [List.foldl_map]
    simp only [gadgetOfWire_wireOfGadget]
    have hfold := foldl_mapSet_eq [] hnd (by intro a ha; cases ha)
    simpa using hfold
  have hh : (s.history.map wireOfEntry).map entryOfWire = s.history.map reSnap := by
    rw [List.map_map]
    congr 1
  rw [hstep, hg, hh]

/-- C1 amended: for any sequence of add, update and delete calls on a fresh
store, importing the encrypted export under the same secret into another
fresh store reproduces the gadget mapping exactly — in particular an
identical set of gadgets by id, name, brand and price — and reproduces the
history identically in action, timestamp, and the id, name, brand and
price of each snapshot; each snapshot addedAt however comes back as its
serialized string form (`reSnap`), not as the original Date. -/
theorem importExport_roundTrip (ops : List Op) (secret : String) (iv : Nat) :
    importEncrypted emptyTracker
        (exportEncrypted (runOps emptyTracker ops) secret iv) secret =
      (.ok (), ⟨(runOps emptyTracker ops).gadgets,
        (runOps emptyTracker ops).history.map reSnap, 1⟩) := by
  rw [roundTrip_general (runOps emptyTracker ops)
    (nodupIds_runOps (show nodupIds emptyTracker.gadgets from List.Pairwise.nil) ops)
    secret iv, version_runOps]
  rfl

/-- C1 counterexample: after a single add, the round trip preserves the ADD
entry action and timestamp but not its gadget snapshot — the snapshot
addedAt comes back as a string — so the reproduced history is not
identical to the original. -/
theorem importExport_roundTrip_counterexample :
    (importEncrypted emptyTracker
        (exportEncrypted (runOps emptyTracker
          [.add "gadget-a" 5 "MacBook" "Apple" 2499]) "k" 7) "k").2.history.map
        (fun e => e.gadget) ≠
      (runOps emptyTracker [.add "gadget-a" 5 "MacBook" "Apple" 2499]).history.map
        (fun e => e.gadget) := by
  decide

namespace RefModel

/-- C9: in the reference-semantics model, every history entry references a
snapshot object that no live-map entry references (the ownership invariant
`WFR`, established for all reachable stores by `WFR_runOpsR`); under it, a
later `updateGadget` call — which mutates the live object in place — leaves
every previously recorded history entry unchanged and leaves the field
values of every recorded snapshot object exactly as they were, and the
invariant is preserved. -/
theorem history_snapshots_independent (s : StoreR) (now : Nat) (id : String)
    (data : GadgetUpdate) (hwf : WFR s) :
    ((updateGadgetR s now id data).2.hist.take s.hist.length = s.hist)
  ∧ (∀ e ∈ s.hist,
      derefR (updateGadgetR s now id data).2.heap e.gadget = derefR s.heap e.gadget)
  ∧ WFR (updateGadgetR s now id data).2 := by
  refine ⟨?_, ?_, WFR_updateGadgetR now id data hwf⟩ <;>
    · cases hm : lookupLive s.live id with
      | none =>
        rw [updateGadgetR_none hm]
        first
        | exact List.take_length s.hist
        | exact fun e he => rfl
      | some r =>
        obtain ⟨k, hkr⟩ := lookupLive_mem hm
        have hne : ∀ e ∈ s.hist, e.gadget ≠ r := fun e he => (hwf.2 e he).2 (k, r) hkr
        have hbound : ∀ e ∈ s.hist, e.gadget < s.heap.length := fun e he => (hwf.2 e he).1
        cases hp : data.price with
        | none =>
          rw [updateGadgetR_some_none hm hp]
          first
          | exact List.take_left s.hist _
          | exact fun e he => by
              show derefR ((s.heap.set r _) ++ [_]) e.gadget = derefR s.heap e.gadget
              rw [derefR_append_left (by simpa using hbound e he),
                derefR_set_ne (hne e he)]
        | some p =>
          by_cases hneg : p < 0
          · rw [updateGadgetR_some_neg hm hp hneg]
            first
            | exact List.take_length s.hist
            | exact fun e he => derefR_set_ne (hne e he)
          · rw [updateGadgetR_some_pos hm hp hneg]
            first
            | exact List.take_left s.hist _
            | exact fun e he => by
                show derefR (((s.heap.set r _).set r _) ++ [_]) e.gadget =
                  derefR s.heap e.gadget
                rw [derefR_append_left
                    (by simp only [List.length_set]; exact hbound e he),
                  derefR_set_ne (hne e he), derefR_set_ne (hne e he)]

/-- Witness for C9: a two-object heap where the single ADD history entry
references the snapshot copy while the live map references the original;
an update succeeds and the recorded snapshot keeps its values. -/
theorem history_snapshots_independent_witness :
    WFR (⟨[⟨"g1", "A", "B", 5, 0⟩, ⟨"g1", "A", "B", 5, 0⟩], [("g1", 0)],
        [⟨.ADD, 1, 0⟩]⟩ : StoreR)
  ∧ (((updateGadgetR ⟨[⟨"g1", "A", "B", 5, 0⟩, ⟨"g1", "A", "B", 5, 0⟩], [("g1", 0)],
        [⟨.ADD, 1, 0⟩]⟩ 9 "g1" ⟨some "X", none, some 7⟩).2.hist.take 1 = [⟨.ADD, 1, 0⟩])
     ∧ (∀ e ∈ ([⟨.ADD, 1, 0⟩] : List HEntry),
         derefR (updateGadgetR ⟨[⟨"g1", "A", "B", 5, 0⟩, ⟨"g1", "A", "B", 5, 0⟩],
            [("g1", 0)], [⟨.ADD, 1, 0⟩]⟩ 9 "g1" ⟨some "X", none, some 7⟩).2.heap e.gadget
           = derefR [⟨"g1", "A", "B", 5, 0⟩, ⟨"g1", "A", "B", 5, 0⟩] e.gadget)
     ∧ WFR (updateGadgetR ⟨[⟨"g1", "A", "B", 5, 0⟩, ⟨"g1", "A", "B", 5, 0⟩], [("g1", 0)],
        [⟨.ADD, 1, 0⟩]⟩ 9 "g1" ⟨some "X", none, some 7⟩).2) :=
  ⟨by decide,
    history_snapshots_independent ⟨[⟨"g1", "A", "B", 5, 0⟩, ⟨"g1", "A", "B", 5, 0⟩],
      [("g1", 0)], [⟨.ADD, 1, 0⟩]⟩ 9 "g1" ⟨some "X", none, some 7⟩ (by decide)⟩

end RefModel
